import Mathlib

/-! # Program memory of the embedded computer system

A shallow embedding of `program_memory.c` / `program_memory.h`: the constant
instruction table `data`, the fetch function `program_memory_read` and the
diagnostic lookup `program_memory_subroutine_name`.

Conventions of the embedding:

* Machine integers are natural numbers. A `uint8_t` value is a natural number
  below `2 ^ 8`; a `uint32_t` value is a natural number below `2 ^ 32`.
  An argument passed for a `const uint8_t address` parameter is converted to
  that type, that is, reduced modulo `2 ^ 8` (`uint8_t`), before the body runs;
  statements about "every 8-bit address" carry the hypothesis
  `a < UINT8_RANGE`.
* Reading a C array is modelled by `List` lookup into `Option`: `none` stands
  for an access outside the array object (undefined behaviour in C).
* A `const char*` result pointing at a string literal is modelled by the
  `String` it points at.
-/

namespace ProgramMemory

/-! ## Macro definitions -/

/-- Number of values of the C type `uint8_t` (addresses are `0 .. 255`). -/
def UINT8_RANGE : Nat := 2 ^ 8

/-- Conversion of an integer value to the C type `uint8_t`: the value modulo
`2 ^ 8`. -/
def uint8_t (n : Nat) : Nat := n % UINT8_RANGE

/-- The macro `PROGRAM_MEMORY_DATA_WIDTH` of `program_memory.h`: 24 bits per instruction. -/
def PROGRAM_MEMORY_DATA_WIDTH : Nat := 24

/-- The macro `PROGRAM_MEMORY_ADDRESS_WIDTH` of `program_memory.h`: the number of
entries of the table `data`. -/
def PROGRAM_MEMORY_ADDRESS_WIDTH : Nat := 1024

/-- Modelled from the spec: the macro `RESET_vect` is defined in `cpu.h`, which is
not part of the sources at hand. The spec names the range `[0, 8)` as
`RESET_vect`, and the table comments place the reset vector at address `0x00`. -/
def RESET_vect : Nat := 0x00

/-- The macro `main`: start address for subroutine main. -/
def main : Nat := 0x08

/-- The macro `main_loop`: start address for loop in subroutine main. -/
def main_loop : Nat := 0x0D

/-- The macro `end`: end address for current program. -/
def «end» : Nat := 0x11

/-! ## The instruction table -/

/-- The initialiser list of `data`, in source order (addresses `0x00 .. 0x10`). -/
def data_init : List Nat :=
  [ 0x160800, -- 0x00 => JMP main
    0x000000, -- 0x01 => NOP
    0x000000, -- 0x02 => NOP
    0x000000, -- 0x03 => NOP
    0x000000, -- 0x04 => NOP
    0x000000, -- 0x05 => NOP
    0x000000, -- 0x06 => NOP
    0x000000, -- 0x07 => NOP
    0x011007, -- 0x08 => LDI R16, (1 << LED1) | (1 << LED2) | (1 << LED3)
    0x030010, -- 0x09 => OUT DDRB, R16
    0x011001, -- 0x0A => LDI R16, (1 << LED1)
    0x011102, -- 0x0B => LDI R17, (1 << LED2)
    0x011204, -- 0x0C => LDI R18, (1 << LED3)
    0x030110, -- 0x0D => OUT PORTB, R16
    0x030111, -- 0x0E => OUT PORTB, R17
    0x030112, -- 0x0F => OUT PORTB, R18
    0x160D00  -- 0x10 => JMP main_loop
  ]

/-- The table `static const uint32_t data[PROGRAM_MEMORY_ADDRESS_WIDTH] = { ... }`.
An array with fewer initialisers than elements has its remaining elements
initialised to zero. -/
def data : List Nat :=
  data_init ++ List.replicate (PROGRAM_MEMORY_ADDRESS_WIDTH - data_init.length) 0

/-! ## The two operations -/

/-- The function `program_memory_read`: returns the instruction at the specified
address; `0x00` for an address that is not below `PROGRAM_MEMORY_ADDRESS_WIDTH`.
The result is `none` exactly if the array access `data[address]` is out of
bounds. The parameter is `const uint8_t address`: the argument is converted to
`uint8_t` and the body works on the converted value. -/
def program_memory_read (address : Nat) : Option Nat :=
  let address := uint8_t address
  if address < PROGRAM_MEMORY_ADDRESS_WIDTH then
    data[address]?
  else
    some 0x00

/-- The function `program_memory_subroutine_name`: returns the name of the
subroutine at the specified address. The parameter is `const uint8_t address`:
the argument is converted to `uint8_t` and the body works on the converted
value. -/
def program_memory_subroutine_name (address : Nat) : String :=
  let address := uint8_t address
  if address ≥ RESET_vect ∧ address < main then "RESET_vect"
  else if address ≥ main ∧ address < «end» then "main"
  else "Unknown"

/-! ## The range table of the specification -/

/-- The ordered list of `(start, end, label)` tuples of the specification:
the two named half-open address ranges, in declaration order. -/
def subroutine_ranges : List (Nat × Nat × String) :=
  [(0, 8, "RESET_vect"), (8, 17, "main")]

/-- First-match linear scan over an ordered list of `(start, end, label)`
tuples, as the specification words the lookup: the label of the first tuple
with `start ≤ address < end`, and `"Unknown"` if there is none. -/
def subroutine_name_scan : List (Nat × Nat × String) → Nat → String
  | [], _ => "Unknown"
  | (start, stop, label) :: rest, address =>
      if start ≤ address ∧ address < stop then label
      else subroutine_name_scan rest address

/-! ## The two operations with the memory passed explicitly -/

/-- The objects with static storage duration of `program_memory.c`: the table
`data` and nothing else. -/
structure Memory where
  /-- Contents of the table `data`. -/
  data : List Nat

/-- The memory at program start: the table holds its initialisers. -/
def initial_memory : Memory := Memory.mk data

/-- The function `program_memory_read` as a state transformer: it receives the
memory, reads the table held there, and returns its result together with the
memory it leaves behind. -/
def program_memory_read_st (address : Nat) (m : Memory) : Option Nat × Memory :=
  let address := uint8_t address
  if address < PROGRAM_MEMORY_ADDRESS_WIDTH then
    (m.data[address]?, m)
  else
    (some 0x00, m)

/-- The function `program_memory_subroutine_name` as a state transformer: it
returns its label together with the memory it leaves behind. -/
def program_memory_subroutine_name_st (address : Nat) (m : Memory) : String × Memory :=
  let address := uint8_t address
  if address ≥ RESET_vect ∧ address < main then ("RESET_vect", m)
  else if address ≥ main ∧ address < «end» then ("main", m)
  else ("Unknown", m)

/-- A call of one of the two functions of the interface. -/
inductive Call where
  | read (address : Nat)
  | subroutine_name (address : Nat)

/-- The value returned by a call. -/
inductive Returned where
  | word (w : Option Nat)
  | label (s : String)

/-- One call executed in memory `m`: the value the called function returns and
the memory the called function leaves. -/
def call (m : Memory) : Call → Returned × Memory
  | Call.read address =>
      (Returned.word (program_memory_read_st address m).1,
        (program_memory_read_st address m).2)
  | Call.subroutine_name address =>
      (Returned.label (program_memory_subroutine_name_st address m).1,
        (program_memory_subroutine_name_st address m).2)

/-- The memory left by a sequence of calls executed one after the other. -/
def calls (m : Memory) : List Call → Memory
  | [] => m
  | c :: cs => calls (call m c).2 cs

/-! ## The program counter -/

/-- Modelled from the spec: the control unit that owns the program counter is
not part of the sources at hand. The spec has the fetch stage read at the
current program counter, which advances from one address to the next, and calls
the word at address 0 a jump to the start address of main. With the encoding
of the table comments, a word with opcode byte `0x16` (`JMP`) continues at
the address in its bits 8 .. 15; every other word (`NOP`, `LDI`, `OUT`)
continues at the following 8-bit address. -/
def next_address (address : Nat) : Option Nat :=
  match program_memory_read address with
  | none => none
  | some w =>
      if w >>> 16 = 0x16 then some ((w >>> 8) &&& 0xFF)
      else some ((address + 1) % UINT8_RANGE)

/-- The address fetched in cycle `n`, starting from the reset vector. -/
def address_sequence : Nat → Option Nat
  | 0 => some RESET_vect
  | n + 1 => (address_sequence n).bind next_address

/-! ## Auxiliary facts about the table -/

theorem data_init_length : data_init.length = 17 := rfl

theorem data_length : data.length = 1024 := by
  rw [data, List.length_append, List.length_replicate, data_init_length]
  rfl

/-- Lookup in the table: the first 17 entries are the initialisers, the others
up to index 1023 are zero. -/
theorem data_lookup (i : Nat) :
    data[i]? = if i < 17 then data_init[i]?
               else if i < 1024 then some 0 else none := by
  unfold data
  rw [data_init_length]
  by_cases h : i < 17
  · rw [List.getElem?_append_left (by rw [data_init_length]; exact h)]
    simp [h]
  · rw [List.getElem?_append_right (by rw [data_init_length]; omega)]
    simp only [h, if_false, data_init_length, PROGRAM_MEMORY_ADDRESS_WIDTH]
    by_cases h2 : i < 1024
    · simp only [h2, if_true]
      rw [List.getElem?_replicate]
      have : i - 17 < 1024 - 17 := by omega
      simp [this]
    · simp only [h2, if_false]
      rw [List.getElem?_replicate]
      have : ¬ (i - 17 < 1024 - 17) := by omega
      simp [this]

/-- Conversion to `uint8_t` leaves an 8-bit value as it is. -/
theorem uint8_t_of_lt (a : Nat) (h : a < 256) : uint8_t a = a :=
  Nat.mod_eq_of_lt h

/-- A value converted to `uint8_t` is below 256. -/
theorem uint8_t_lt (a : Nat) : uint8_t a < 256 :=
  Nat.mod_lt a (by decide)

/-- The fetch function is the table lookup at the converted address. -/
theorem program_memory_read_eq_lookup (a : Nat) :
    program_memory_read a = data[uint8_t a]? := by
  have h : uint8_t a < PROGRAM_MEMORY_ADDRESS_WIDTH :=
    Nat.lt_trans (uint8_t_lt a) (by decide)
  show (if uint8_t a < PROGRAM_MEMORY_ADDRESS_WIDTH then data[uint8_t a]? else some 0x00) = _
  rw [if_pos h]

/-- The fetch function on an 8-bit address is the table lookup. -/
theorem program_memory_read_of_lt (a : Nat) (h : a < 256) :
    program_memory_read a = data[a]? := by
  rw [program_memory_read_eq_lookup, uint8_t_of_lt a h]

/-- The name lookup on an 8-bit address is the chain of range tests on it. -/
theorem program_memory_subroutine_name_of_lt (a : Nat) (h : a < 256) :
    program_memory_subroutine_name a =
      if a ≥ RESET_vect ∧ a < main then "RESET_vect"
      else if a ≥ main ∧ a < «end» then "main"
      else "Unknown" := by
  show (if uint8_t a ≥ RESET_vect ∧ uint8_t a < main then "RESET_vect"
        else if uint8_t a ≥ main ∧ uint8_t a < «end» then "main"
        else "Unknown") = _
  rw [uint8_t_of_lt a h]

/-- Every entry of the table from index 17 up to index 1023 is zero. -/
theorem data_tail_zero (i : Nat) (h17 : 17 ≤ i) (h : i < 1024) : data[i]? = some 0 := by
  rw [data_lookup, if_neg (by omega), if_pos h]

/-- The first 17 entries of the table are the initialisers. -/
theorem data_take_init : data.take 17 = data_init := by
  unfold data
  exact List.take_left' data_init_length

/-- Every entry of the table is below `2 ^ 24`. -/
theorem data_entry_lt (w : Nat) (hw : w ∈ data) : w < 2 ^ 24 := by
  unfold data at hw
  rcases List.mem_append.mp hw with h | h
  · simp only [data_init, List.mem_cons, List.mem_singleton, List.not_mem_nil, or_false] at h
    omega
  · rw [List.eq_of_mem_replicate h]
    decide

/-- The fetch function on an address below 17 is the lookup among the initialisers. -/
theorem program_memory_read_init (a : Nat) (h : a < 17) :
    program_memory_read a = data_init[a]? := by
  rw [program_memory_read_of_lt a (by omega), data_lookup, if_pos h]

/-- The fetch function at an 8-bit address from 17 on returns zero. -/
theorem program_memory_read_tail (a : Nat) (h17 : 17 ≤ a) (h : a < 256) :
    program_memory_read a = some 0 := by
  rw [program_memory_read_of_lt a h]
  exact data_tail_zero a h17 (by omega)

/-- The body of `program_memory_read` leaves the memory as it received it. -/
theorem program_memory_read_st_memory (a : Nat) (m : Memory) :
    (program_memory_read_st a m).2 = m := by
  unfold program_memory_read_st
  dsimp only
  split <;> rfl

/-- The body of `program_memory_subroutine_name` leaves the memory as it
received it. -/
theorem program_memory_subroutine_name_st_memory (a : Nat) (m : Memory) :
    (program_memory_subroutine_name_st a m).2 = m := by
  unfold program_memory_subroutine_name_st
  dsimp only
  split
  · rfl
  · split <;> rfl

/-- On the memory of program start, the state transformer of
`program_memory_read` returns what the function of the address returns. -/
theorem program_memory_read_st_initial (a : Nat) :
    (program_memory_read_st a initial_memory).1 = program_memory_read a := by
  unfold program_memory_read_st program_memory_read
  dsimp only
  split <;> rfl

/-- The state transformer of `program_memory_subroutine_name` returns what the
function of the address returns. -/
theorem program_memory_subroutine_name_st_value (a : Nat) (m : Memory) :
    (program_memory_subroutine_name_st a m).1 = program_memory_subroutine_name a := by
  unfold program_memory_subroutine_name_st program_memory_subroutine_name
  dsimp only
  split
  · rfl
  · split <;> rfl

/-- No call changes the memory. -/
theorem call_memory (m : Memory) (c : Call) : (call m c).2 = m := by
  cases c with
  | read a => exact program_memory_read_st_memory a m
  | subroutine_name a => exact program_memory_subroutine_name_st_memory a m

/-- No sequence of calls changes the memory. -/
theorem calls_memory (m : Memory) (cs : List Call) : calls m cs = m := by
  induction cs generalizing m with
  | nil => rfl
  | cons c cs ih => rw [calls, call_memory, ih]

/-- The addresses `0` and `8 .. 16` are closed under `next_address`. -/
theorem next_address_closed (a : Nat) (h : a = 0 ∨ (8 ≤ a ∧ a ≤ 16)) :
    ∃ b, next_address a = some b ∧ (b = 0 ∨ (8 ≤ b ∧ b ≤ 16)) := by
  have h17 : a < 17 := by omega
  unfold next_address
  rw [program_memory_read_init a h17]
  rcases h with h | ⟨h8, h16⟩
  · subst h
    exact ⟨8, by simp [data_init]; decide, by omega⟩
  · interval_cases a
    · exact ⟨9, by simp [data_init, UINT8_RANGE], by omega⟩
    · exact ⟨10, by simp [data_init, UINT8_RANGE], by omega⟩
    · exact ⟨11, by simp [data_init, UINT8_RANGE], by omega⟩
    · exact ⟨12, by simp [data_init, UINT8_RANGE], by omega⟩
    · exact ⟨13, by simp [data_init, UINT8_RANGE], by omega⟩
    · exact ⟨14, by simp [data_init, UINT8_RANGE], by omega⟩
    · exact ⟨15, by simp [data_init, UINT8_RANGE], by omega⟩
    · exact ⟨16, by simp [data_init, UINT8_RANGE], by omega⟩
    · exact ⟨13, by simp [data_init]; decide, by omega⟩

/-- Every fetched address is `0` or lies in `8 .. 16`. -/
theorem address_sequence_range (n : Nat) :
    ∃ pc, address_sequence n = some pc ∧ (pc = 0 ∨ (8 ≤ pc ∧ pc ≤ 16)) := by
  induction n with
  | zero => exact ⟨0, rfl, Or.inl rfl⟩
  | succ n ih =>
    obtain ⟨pc, hpc, hr⟩ := ih
    obtain ⟨b, hb, hbr⟩ := next_address_closed pc hr
    exact ⟨b, by rw [address_sequence, hpc]; exact hb, hbr⟩

/-- An address below 17 is not named `"Unknown"`. -/
theorem subroutine_name_known (a : Nat) (h : a < 17) :
    program_memory_subroutine_name a ≠ "Unknown" := by
  have h256 : a < 256 := by omega
  by_cases h8 : a < 8
  · simp [program_memory_subroutine_name_of_lt _ h256, RESET_vect, main, h8]
  · have h8' : 8 ≤ a := by omega
    simp [program_memory_subroutine_name_of_lt _ h256, RESET_vect, main, «end», h8, h8', h]

/-! ## The instruction store: contents -/

/-- C1: for every 8-bit address `a`, `program_memory_read a` returns exactly the
word stored at index `a` of the table `data` (the index is in bounds), where
`data` has 1024 entries, its first 17 entries are the literals of the source
and all its remaining entries are zero. -/
theorem program_memory_read_eq_data (a : Nat) (ha : a < UINT8_RANGE) :
    (∃ h : a < data.length, program_memory_read a = some (data.get ⟨a, h⟩)) ∧
    data.length = 1024 ∧
    data.take 17 =
      [0x160800, 0x000000, 0x000000, 0x000000, 0x000000, 0x000000, 0x000000, 0x000000,
       0x011007, 0x030010, 0x011001, 0x011102, 0x011204,
       0x030110, 0x030111, 0x030112, 0x160D00] ∧
    ∀ i, 17 ≤ i → i < 1024 → data[i]? = some 0 := by
  have h256 : a < 256 := ha
  have hlen : a < data.length := by rw [data_length]; omega
  refine ⟨⟨hlen, ?_⟩, data_length, ?_, data_tail_zero⟩
  · rw [program_memory_read_of_lt a (by omega), List.getElem?_eq_getElem hlen]
    rfl
  · rw [data_take_init]
    rfl

theorem program_memory_read_eq_data_witness :
    (16 < UINT8_RANGE) ∧
    ((∃ h : 16 < data.length, program_memory_read 16 = some (data.get ⟨16, h⟩)) ∧
     data.length = 1024 ∧
     data.take 17 =
      [0x160800, 0x000000, 0x000000, 0x000000, 0x000000, 0x000000, 0x000000, 0x000000,
       0x011007, 0x030010, 0x011001, 0x011102, 0x011204,
       0x030110, 0x030111, 0x030112, 0x160D00] ∧
     ∀ i, 17 ≤ i → i < 1024 → data[i]? = some 0) :=
  ⟨by decide, program_memory_read_eq_data 16 (by decide)⟩

/-- C2: the word at address 0 is `0x160800`. -/
theorem program_memory_read_reset_vector : program_memory_read 0 = some 0x160800 := by
  rw [program_memory_read_of_lt 0 (by decide), data_lookup]
  rfl

/-- C3: for every address `a` with `1 ≤ a ≤ 7`, the word at `a` is `0x000000`. -/
theorem program_memory_read_padding (a : Nat) (h1 : 1 ≤ a) (h7 : a ≤ 7) :
    program_memory_read a = some 0x000000 := by
  rw [program_memory_read_of_lt a (by omega), data_lookup, if_pos (by omega)]
  interval_cases a <;> rfl

theorem program_memory_read_padding_witness :
    1 ≤ 4 ∧ 4 ≤ 7 ∧ program_memory_read 4 = some 0x000000 :=
  ⟨by decide, by decide, program_memory_read_padding 4 (by decide) (by decide)⟩

/-! ## Name resolution -/

/-- C4: for every 8-bit address `a` with `0 ≤ a < 8` the subroutine name is
`"RESET_vect"` (with `RESET_vect = 0x00`). -/
theorem program_memory_subroutine_name_reset (a : Nat) (ha : a < UINT8_RANGE)
    (_h0 : 0 ≤ a) (h8 : a < 8) :
    program_memory_subroutine_name a = "RESET_vect" := by
  have h256 : a < 256 := ha
  simp [program_memory_subroutine_name_of_lt _ h256, RESET_vect, main, h8]

theorem program_memory_subroutine_name_reset_witness :
    7 < UINT8_RANGE ∧ 0 ≤ 7 ∧ 7 < 8 ∧ program_memory_subroutine_name 7 = "RESET_vect" :=
  ⟨by decide, by decide, by decide,
    program_memory_subroutine_name_reset 7 (by decide) (by decide) (by decide)⟩

/-- C5: for every 8-bit address `a` with `8 ≤ a < 17` the subroutine name is
`"main"`. -/
theorem program_memory_subroutine_name_main (a : Nat) (ha : a < UINT8_RANGE)
    (h8 : 8 ≤ a) (h17 : a < 17) :
    program_memory_subroutine_name a = "main" := by
  have h256 : a < 256 := ha
  have hn : ¬ a < 8 := by omega
  simp [program_memory_subroutine_name_of_lt _ h256, RESET_vect, main, «end», hn, h8, h17]

theorem program_memory_subroutine_name_main_witness :
    16 < UINT8_RANGE ∧ 8 ≤ 16 ∧ 16 < 17 ∧ program_memory_subroutine_name 16 = "main" :=
  ⟨by decide, by decide, by decide,
    program_memory_subroutine_name_main 16 (by decide) (by decide) (by decide)⟩

/-- C6: for every 8-bit address `a`, if `a ≥ 17` then the subroutine name is
`"Unknown"`, and conversely the name is `"Unknown"` only if `a ≥ 17`. -/
theorem program_memory_subroutine_name_unknown (a : Nat) (ha : a < UINT8_RANGE) :
    (17 ≤ a → program_memory_subroutine_name a = "Unknown") ∧
    (program_memory_subroutine_name a = "Unknown" → 17 ≤ a) := by
  have h256 : a < 256 := ha
  constructor
  · intro h
    have h1 : ¬ a < 8 := by omega
    have h2 : ¬ a < 17 := by omega
    simp [program_memory_subroutine_name_of_lt _ h256, RESET_vect, main, «end», h1, h2]
  · intro h
    by_contra hlt
    by_cases h8 : a < 8
    · simp [program_memory_subroutine_name_of_lt _ h256, RESET_vect, main, h8] at h
    · have h8' : 8 ≤ a := by omega
      have h17 : a < 17 := by omega
      simp [program_memory_subroutine_name_of_lt _ h256, RESET_vect, main, «end», h8, h8', h17] at h

theorem program_memory_subroutine_name_unknown_witness :
    17 < UINT8_RANGE ∧
    ((17 ≤ 17 → program_memory_subroutine_name 17 = "Unknown") ∧
     (program_memory_subroutine_name 17 = "Unknown" → 17 ≤ 17)) :=
  ⟨by decide, program_memory_subroutine_name_unknown 17 (by decide)⟩

/-! ## The instruction store: bounds and word width -/

/-- C8: `program_memory_read` is total and bounds-safe on 8-bit addresses: for
every `a` in `0 .. 255` the guard `a < PROGRAM_MEMORY_ADDRESS_WIDTH = 1024`
holds, the index `a` is within the bounds of `data`, the function returns what
the table-lookup branch returns (the invalid-address branch is not taken), and
the result is a value, not a failure. -/
theorem program_memory_read_total (a : Nat) (ha : a < UINT8_RANGE) :
    PROGRAM_MEMORY_ADDRESS_WIDTH = 1024 ∧
    a < PROGRAM_MEMORY_ADDRESS_WIDTH ∧
    a < data.length ∧
    program_memory_read a = data[a]? ∧
    ∃ w, program_memory_read a = some w := by
  have h256 : a < 256 := ha
  have hlen : a < data.length := by rw [data_length]; omega
  have hread := program_memory_read_of_lt a (by omega)
  refine ⟨rfl, ?_, hlen, hread, data.get ⟨a, hlen⟩, ?_⟩
  · simp only [PROGRAM_MEMORY_ADDRESS_WIDTH]; omega
  · rw [hread, List.getElem?_eq_getElem hlen]
    rfl

theorem program_memory_read_total_witness :
    255 < UINT8_RANGE ∧
    (PROGRAM_MEMORY_ADDRESS_WIDTH = 1024 ∧
     255 < PROGRAM_MEMORY_ADDRESS_WIDTH ∧
     255 < data.length ∧
     program_memory_read 255 = data[255]? ∧
     ∃ w, program_memory_read 255 = some w) :=
  ⟨by decide, program_memory_read_total 255 (by decide)⟩

/-- C9: every instruction word is a 24-bit value: for every 8-bit address `a`,
`program_memory_read a` returns a word below `2 ^ 24`, whose bits 24 .. 31 are
zero; and each of the 1024 entries of the table is below `2 ^ 24`. -/
theorem program_memory_read_lt_two_pow_24 (a : Nat) (ha : a < UINT8_RANGE) :
    (∃ w, program_memory_read a = some w ∧ w < 2 ^ PROGRAM_MEMORY_DATA_WIDTH ∧
      w / 2 ^ 24 % 2 ^ 8 = 0) ∧
    data.length = 1024 ∧
    ∀ w ∈ data, w < 2 ^ PROGRAM_MEMORY_DATA_WIDTH := by
  have h256 : a < 256 := ha
  have hlen : a < data.length := by rw [data_length]; omega
  have hmem : data.get ⟨a, hlen⟩ ∈ data := List.get_mem data a hlen
  have hlt : data.get ⟨a, hlen⟩ < 2 ^ 24 := data_entry_lt _ hmem
  refine ⟨⟨data.get ⟨a, hlen⟩, ?_, hlt, ?_⟩, data_length, data_entry_lt⟩
  · rw [program_memory_read_of_lt a (by omega), List.getElem?_eq_getElem hlen]
    rfl
  · rw [Nat.div_eq_of_lt hlt, Nat.zero_mod]

theorem program_memory_read_lt_two_pow_24_witness :
    8 < UINT8_RANGE ∧
    ((∃ w, program_memory_read 8 = some w ∧ w < 2 ^ PROGRAM_MEMORY_DATA_WIDTH ∧
      w / 2 ^ 24 % 2 ^ 8 = 0) ∧
     data.length = 1024 ∧
     ∀ w ∈ data, w < 2 ^ PROGRAM_MEMORY_DATA_WIDTH) :=
  ⟨by decide, program_memory_read_lt_two_pow_24 8 (by decide)⟩

/-- C10: the table has exactly `PROGRAM_MEMORY_ADDRESS_WIDTH = 1024` slots and
every slot after the 17 initialised ones holds zero: the entry at every index
`i` with `17 ≤ i < 1024` is `0x000000`, and for every 8-bit address `a` with
`17 ≤ a ≤ 255`, `program_memory_read a` returns `0x000000`. -/
theorem data_unused_slots_zero (i a : Nat) (hi : 17 ≤ i) (hi2 : i < 1024)
    (ha : 17 ≤ a) (ha2 : a ≤ 255) :
    data.length = PROGRAM_MEMORY_ADDRESS_WIDTH ∧
    PROGRAM_MEMORY_ADDRESS_WIDTH = 1024 ∧
    data[i]? = some 0x000000 ∧
    program_memory_read a = some 0x000000 := by
  refine ⟨data_length, rfl, data_tail_zero i hi hi2, ?_⟩
  rw [program_memory_read_of_lt a (by omega)]
  exact data_tail_zero a ha (by omega)

theorem data_unused_slots_zero_witness :
    17 ≤ 1023 ∧ 1023 < 1024 ∧ 17 ≤ 17 ∧ 17 ≤ 255 ∧
    (data.length = PROGRAM_MEMORY_ADDRESS_WIDTH ∧
     PROGRAM_MEMORY_ADDRESS_WIDTH = 1024 ∧
     data[1023]? = some 0x000000 ∧
     program_memory_read 17 = some 0x000000) :=
  ⟨by decide, by decide, by decide, by decide,
    data_unused_slots_zero 1023 17 (by decide) (by decide) (by decide) (by decide)⟩

/-! ## The reset vector and the range table -/

/-- C11: the reset vector is a jump to the start address of subroutine main:
the word at address 0 has opcode byte `0x16` and its target-address field
(bits 8 .. 15) is `0x08`, which is the macro `main` and the smallest address
whose subroutine name is `"main"`. -/
theorem reset_vector_targets_main :
    ∃ w, program_memory_read 0 = some w ∧
      w >>> 16 = 0x16 ∧
      (w >>> 8) &&& 0xFF = 0x08 ∧
      main = 0x08 ∧
      program_memory_subroutine_name 0x08 = "main" ∧
      ∀ a, program_memory_subroutine_name a = "main" → 0x08 ≤ a := by
  refine ⟨0x160800, ?_, by decide, by decide, rfl, ?_, ?_⟩
  · rw [program_memory_read_of_lt 0 (by decide), data_lookup]
    rfl
  · have h256 : 8 < 256 := by decide
    simp [program_memory_subroutine_name_of_lt _ h256, RESET_vect, main, «end»]
  · intro a h
    by_contra hlt
    have h8 : a < 8 := by omega
    have h256 : a < 256 := by omega
    simp [program_memory_subroutine_name_of_lt _ h256, RESET_vect, main, h8] at h

/-- C12: the two ranges tested by `program_memory_subroutine_name`,
`[RESET_vect, main) = [0, 8)` and `[main, end) = [8, 17)`, are non-empty, ordered
by start address and disjoint: no 8-bit address passes both containment tests.
Each test holds exactly where the function returns the label of its range. -/
theorem subroutine_ranges_disjoint (a : Nat) (ha : a < UINT8_RANGE) :
    (RESET_vect = 0 ∧ main = 8 ∧ «end» = 17) ∧
    (RESET_vect < main ∧ main < «end») ∧
    RESET_vect ≤ main ∧
    ¬ ((a ≥ RESET_vect ∧ a < main) ∧ (a ≥ main ∧ a < «end»)) ∧
    ((a ≥ RESET_vect ∧ a < main) ↔ program_memory_subroutine_name a = "RESET_vect") ∧
    ((a ≥ main ∧ a < «end») ↔ program_memory_subroutine_name a = "main") := by
  have h256 : a < 256 := ha
  refine ⟨⟨rfl, rfl, rfl⟩, ⟨by decide, by decide⟩, by decide, ?_, ?_, ?_⟩
  · simp only [RESET_vect, main, «end»]
    omega
  · by_cases h8 : a < 8
    · simp [program_memory_subroutine_name_of_lt _ h256, RESET_vect, main, h8]
    · by_cases h17 : a < 17
      · have h8' : 8 ≤ a := by omega
        simp [program_memory_subroutine_name_of_lt _ h256, RESET_vect, main, «end», h8, h8', h17]
      · have h8' : 8 ≤ a := by omega
        simp [program_memory_subroutine_name_of_lt _ h256, RESET_vect, main, «end», h8, h8', h17]
  · by_cases h8 : a < 8
    · have h8' : ¬ 8 ≤ a := by omega
      simp [program_memory_subroutine_name_of_lt _ h256, RESET_vect, main, «end», h8, h8']
    · by_cases h17 : a < 17
      · have h8' : 8 ≤ a := by omega
        simp [program_memory_subroutine_name_of_lt _ h256, RESET_vect, main, «end», h8, h8', h17]
      · simp [program_memory_subroutine_name_of_lt _ h256, RESET_vect, main, «end», h8, h17]

theorem subroutine_ranges_disjoint_witness :
    8 < UINT8_RANGE ∧
    ((RESET_vect = 0 ∧ main = 8 ∧ «end» = 17) ∧
     (RESET_vect < main ∧ main < «end») ∧
     RESET_vect ≤ main ∧
     ¬ ((8 ≥ RESET_vect ∧ 8 < main) ∧ (8 ≥ main ∧ 8 < «end»)) ∧
     ((8 ≥ RESET_vect ∧ 8 < main) ↔ program_memory_subroutine_name 8 = "RESET_vect") ∧
     ((8 ≥ main ∧ 8 < «end») ↔ program_memory_subroutine_name 8 = "main")) :=
  ⟨by decide, subroutine_ranges_disjoint 8 (by decide)⟩

/-- C13: for every 8-bit address `a`, `program_memory_subroutine_name a` equals
the first-match linear scan over the ordered tuple list
`[(0, 8, "RESET_vect"), (8, 17, "main")]`. -/
theorem program_memory_subroutine_name_eq_scan (a : Nat) (ha : a < UINT8_RANGE) :
    subroutine_ranges = [(0, 8, "RESET_vect"), (8, 17, "main")] ∧
    program_memory_subroutine_name a = subroutine_name_scan subroutine_ranges a := by
  have h256 : a < 256 := ha
  refine ⟨rfl, ?_⟩
  rw [program_memory_subroutine_name_of_lt a h256]
  simp only [subroutine_ranges, subroutine_name_scan, RESET_vect, main, «end», ge_iff_le]

theorem program_memory_subroutine_name_eq_scan_witness :
    12 < UINT8_RANGE ∧
    (subroutine_ranges = [(0, 8, "RESET_vect"), (8, 17, "main")] ∧
     program_memory_subroutine_name 12 = subroutine_name_scan subroutine_ranges 12) :=
  ⟨by decide, program_memory_subroutine_name_eq_scan 12 (by decide)⟩

/-! ## Capacity of the table -/

/-- C14, as stated, fails: the table `data` does not have 256 entries; it has
an entry at index 256, beyond the addresses 0 - 255. -/
theorem data_length_ne_256 : ¬ (data.length = 256) ∧ data[256]? = some 0 := by
  refine ⟨?_, data_tail_zero 256 (by decide) (by decide)⟩
  rw [data_length]
  decide

/-- C14, amended: the table `data` has capacity for exactly
`PROGRAM_MEMORY_ADDRESS_WIDTH = 1024` instructions, at indices 0 - 1023; the
256 addresses 0 - 255 of the 8-bit address type are the first 256 of them, and
each of these holds the word that `program_memory_read` returns. -/
theorem data_capacity (a : Nat) (ha : a < UINT8_RANGE) :
    data.length = PROGRAM_MEMORY_ADDRESS_WIDTH ∧
    PROGRAM_MEMORY_ADDRESS_WIDTH = 1024 ∧
    (∀ i, i < 1024 ↔ ∃ w, data[i]? = some w) ∧
    UINT8_RANGE = 256 ∧
    ∃ w, data[a]? = some w ∧ program_memory_read a = some w := by
  have h256 : a < 256 := ha
  have hlen : a < data.length := by rw [data_length]; omega
  refine ⟨data_length, rfl, ?_, rfl, data.get ⟨a, hlen⟩, ?_, ?_⟩
  · intro i
    constructor
    · intro hi
      have hl : i < data.length := by rw [data_length]; exact hi
      exact ⟨data.get ⟨i, hl⟩, by rw [List.getElem?_eq_getElem hl]; rfl⟩
    · rintro ⟨w, hw⟩
      by_contra hi
      rw [data_lookup, if_neg (by omega), if_neg hi] at hw
      exact Option.noConfusion hw
  · rw [List.getElem?_eq_getElem hlen]
    rfl
  · rw [program_memory_read_of_lt a (by omega), List.getElem?_eq_getElem hlen]
    rfl

theorem data_capacity_witness :
    255 < UINT8_RANGE ∧
    (data.length = PROGRAM_MEMORY_ADDRESS_WIDTH ∧
     PROGRAM_MEMORY_ADDRESS_WIDTH = 1024 ∧
     (∀ i, i < 1024 ↔ ∃ w, data[i]? = some w) ∧
     UINT8_RANGE = 256 ∧
     ∃ w, data[255]? = some w ∧ program_memory_read 255 = some w) :=
  ⟨by decide, data_capacity 255 (by decide)⟩

/-! ## Absence of hidden state -/

/-- C15: both operations are functions of the address alone. With the memory
passed explicitly through the bodies of the two functions: for every 8-bit
address `a`, whatever calls were made before and whatever calls are made in
between, a call of `program_memory_read a` returns `program_memory_read a` of
the constant table, a second call returns the same word as the first, and
likewise for the labels of `program_memory_subroutine_name a`; the memory the
calls leave is the memory of program start. -/
theorem calls_deterministic (a : Nat) (_ha : a < UINT8_RANGE) (before between : List Call) :
    (call (calls initial_memory before) (Call.read a)).1 =
        Returned.word (program_memory_read a) ∧
    (call (calls (call (calls initial_memory before) (Call.read a)).2 between)
        (Call.read a)).1 =
      (call (calls initial_memory before) (Call.read a)).1 ∧
    (call (calls initial_memory before) (Call.subroutine_name a)).1 =
        Returned.label (program_memory_subroutine_name a) ∧
    (call (calls (call (calls initial_memory before) (Call.subroutine_name a)).2 between)
        (Call.subroutine_name a)).1 =
      (call (calls initial_memory before) (Call.subroutine_name a)).1 ∧
    calls (call (calls initial_memory before) (Call.read a)).2 between = initial_memory := by
  have hread : (call initial_memory (Call.read a)).1 =
      Returned.word (program_memory_read a) := by
    show Returned.word (program_memory_read_st a initial_memory).1 = _
    rw [program_memory_read_st_initial]
  have hname : (call initial_memory (Call.subroutine_name a)).1 =
      Returned.label (program_memory_subroutine_name a) := by
    show Returned.label (program_memory_subroutine_name_st a initial_memory).1 = _
    rw [program_memory_subroutine_name_st_value]
  rw [calls_memory initial_memory before, call_memory initial_memory (Call.read a),
    call_memory initial_memory (Call.subroutine_name a), calls_memory initial_memory between]
  exact ⟨hread, rfl, hname, rfl, rfl⟩

theorem calls_deterministic_witness :
    3 < UINT8_RANGE ∧
    ((call (calls initial_memory [Call.read 9]) (Call.read 3)).1 =
        Returned.word (program_memory_read 3) ∧
     (call (calls (call (calls initial_memory [Call.read 9]) (Call.read 3)).2
        [Call.subroutine_name 3, Call.read 200]) (Call.read 3)).1 =
      (call (calls initial_memory [Call.read 9]) (Call.read 3)).1 ∧
     (call (calls initial_memory [Call.read 9]) (Call.subroutine_name 3)).1 =
        Returned.label (program_memory_subroutine_name 3) ∧
     (call (calls (call (calls initial_memory [Call.read 9]) (Call.subroutine_name 3)).2
        [Call.subroutine_name 3, Call.read 200]) (Call.subroutine_name 3)).1 =
      (call (calls initial_memory [Call.read 9]) (Call.subroutine_name 3)).1 ∧
     calls (call (calls initial_memory [Call.read 9]) (Call.read 3)).2
        [Call.subroutine_name 3, Call.read 200] = initial_memory) :=
  ⟨by decide,
    calls_deterministic 3 (by decide) [Call.read 9] [Call.subroutine_name 3, Call.read 200]⟩

/-! ## The machine code of the program -/

/-- C16: the machine code of main matches its assembly comments for the LED
masks. The immediates (low bytes) of the words at `0x0A`, `0x0B` and `0x0C` are
`1 <<< 0`, `1 <<< 1` and `1 <<< 2`; their destination-register fields (bits
8 .. 15) are `0x10`, `0x11` and `0x12`; and the immediate of the word at
`0x08`, which is `0x07`, is the bitwise or of the three immediates. -/
theorem led_masks_match :
    ∃ w8 wA wB wC,
      program_memory_read 0x08 = some w8 ∧
      program_memory_read 0x0A = some wA ∧
      program_memory_read 0x0B = some wB ∧
      program_memory_read 0x0C = some wC ∧
      wA &&& 0xFF = 1 <<< 0 ∧ wB &&& 0xFF = 1 <<< 1 ∧ wC &&& 0xFF = 1 <<< 2 ∧
      (wA >>> 8) &&& 0xFF = 0x10 ∧ (wB >>> 8) &&& 0xFF = 0x11 ∧
      (wC >>> 8) &&& 0xFF = 0x12 ∧
      w8 &&& 0xFF = 0x07 ∧
      w8 &&& 0xFF = (wA &&& 0xFF) ||| (wB &&& 0xFF) ||| (wC &&& 0xFF) := by
  refine ⟨0x011007, 0x011001, 0x011102, 0x011204, ?_, ?_, ?_, ?_,
    by decide, by decide, by decide, by decide, by decide, by decide, by decide, by decide⟩
  · rw [program_memory_read_init 0x08 (by decide)]; rfl
  · rw [program_memory_read_init 0x0A (by decide)]; rfl
  · rw [program_memory_read_init 0x0B (by decide)]; rfl
  · rw [program_memory_read_init 0x0C (by decide)]; rfl

/-- C17: every non-zero instruction lies inside a named subroutine. For every
8-bit address `a`, if `program_memory_read a` is not the zero word then
`program_memory_subroutine_name a` is not `"Unknown"`; equivalently, every
address named `"Unknown"` reads as `0x000000`. The macro `end` is not smaller
than the number of initialised table entries. -/
theorem nonzero_instruction_named (a : Nat) (ha : a < UINT8_RANGE) :
    (program_memory_read a ≠ some 0x000000 →
      program_memory_subroutine_name a ≠ "Unknown") ∧
    (program_memory_subroutine_name a = "Unknown" →
      program_memory_read a = some 0x000000) ∧
    data_init.length ≤ «end» := by
  have h256 : a < 256 := ha
  refine ⟨?_, ?_, by decide⟩
  · intro hr
    by_cases h17 : a < 17
    · exact subroutine_name_known a h17
    · exact absurd (program_memory_read_tail a (by omega) (by omega)) hr
  · intro hn
    by_cases h17 : a < 17
    · exact absurd hn (subroutine_name_known a h17)
    · exact program_memory_read_tail a (by omega) (by omega)

theorem nonzero_instruction_named_witness :
    16 < UINT8_RANGE ∧
    ((program_memory_read 16 ≠ some 0x000000 →
      program_memory_subroutine_name 16 ≠ "Unknown") ∧
     (program_memory_subroutine_name 16 = "Unknown" →
      program_memory_read 16 = some 0x000000) ∧
     data_init.length ≤ «end») :=
  ⟨by decide, nonzero_instruction_named 16 (by decide)⟩

/-- C18: every jump in the program targets named code. For every 8-bit address
`a` whose word has opcode byte `0x16` (`JMP`), the target in bits 8 .. 15 of the
word is an address named `"main"`. The word at `0x10` is a jump with target
`main_loop = 0x0D`, and every address of the sequence followed from the reset
vector is fetched successfully and is not named `"Unknown"`. -/
theorem jumps_target_main (a : Nat) (ha : a < UINT8_RANGE) :
    (∀ w, program_memory_read a = some w → w >>> 16 = 0x16 →
      program_memory_subroutine_name ((w >>> 8) &&& 0xFF) = "main") ∧
    (∃ w, program_memory_read 0x10 = some w ∧ w >>> 16 = 0x16 ∧
      (w >>> 8) &&& 0xFF = main_loop ∧ main_loop = 0x0D) ∧
    (∀ n, ∃ pc, address_sequence n = some pc ∧
      program_memory_subroutine_name pc ≠ "Unknown") := by
  have h256 : a < 256 := ha
  refine ⟨?_, ⟨0x160D00, ?_, by decide, by decide, rfl⟩, ?_⟩
  · intro w hw hop
    by_cases h17 : a < 17
    · rw [program_memory_read_init a h17] at hw
      have hcases : w = 0x160800 ∨ w = 0x160D00 ∨ w >>> 16 ≠ 0x16 := by
        interval_cases a <;> simp [data_init] at hw <;> subst hw <;> decide
      rcases hcases with h | h | h
      · subst h
        have ht : (0x160800 >>> 8) &&& 0xFF = 8 := by decide
        have h256 : 8 < 256 := by decide
        rw [ht]
        simp [program_memory_subroutine_name_of_lt _ h256, RESET_vect, main, «end»]
      · subst h
        have ht : (0x160D00 >>> 8) &&& 0xFF = 13 := by decide
        have h256 : 13 < 256 := by decide
        rw [ht]
        simp [program_memory_subroutine_name_of_lt _ h256, RESET_vect, main, «end»]
      · exact absurd hop h
    · rw [program_memory_read_tail a (by omega) (by omega)] at hw
      have h0 : w = 0 := (Option.some.inj hw).symm
      subst h0
      exact absurd hop (by decide)
  · rw [program_memory_read_init 0x10 (by decide)]; rfl
  · intro n
    obtain ⟨pc, hpc, hr⟩ := address_sequence_range n
    exact ⟨pc, hpc, subroutine_name_known pc (by omega)⟩

theorem jumps_target_main_witness :
    16 < UINT8_RANGE ∧
    ((∀ w, program_memory_read 16 = some w → w >>> 16 = 0x16 →
      program_memory_subroutine_name ((w >>> 8) &&& 0xFF) = "main") ∧
     (∃ w, program_memory_read 0x10 = some w ∧ w >>> 16 = 0x16 ∧
      (w >>> 8) &&& 0xFF = main_loop ∧ main_loop = 0x0D) ∧
     (∀ n, ∃ pc, address_sequence n = some pc ∧
      program_memory_subroutine_name pc ≠ "Unknown")) :=
  ⟨by decide, jumps_target_main 16 (by decide)⟩

end ProgramMemory
